import Mathlib

/-!
Verification of the hierarchical API registry of
`src/packages/api-registry/lib/api-registry.js` (class `APIRegistry`).

The registry is a tree of nodes.  Each node holds
  * `#scopeName`    : the domain name, upper-cased at construction,
  * `#parentRegistry` : a reference to the parent node (absent for a root),
  * `#apiMap`       : a JS `Map` from normalized pattern strings to arrays
                      of handler functions (insertion ordered),
  * `#childRegistries` : a JS `Map` from scope names to child registries.

The embedding below is a direct translation of that file:

  * JS `Map`s with string keys are modelled as insertion-ordered association
    lists (`mget` / `mset` / `mdel` mirror `Map.get` / `Map.set` /
    `Map.delete` for the unique-key maps the class maintains).
  * A handler function is modelled by `Handler`: `hid` is its JS reference
    identity (used by `===` / `indexOf`), and `run` models invoking the
    handler as a boolean ("truthiness") predicate on another handler's
    identity — which is exactly how `register` uses handlers, because it
    calls `apiList.find(api)`, and `Array.prototype.find` treats its
    argument as a predicate applied to each element.
  * The parent chain of a node is made explicit: an operation that in JS
    runs on a node with ancestors `p1, p2, …` is modelled by passing the
    node's own data plus the list `[p1, p2, …]` of ancestor data
    (`resolve` is the only method that walks this chain).
  * The ambient global `serverEnvironment` only gates `console.info`
    diagnostics in `register` / `unregister` / `unregisterAll`; both
    branches return the same value, so it does not appear in the model.
  * `toLocaleUpperCase()` is modelled by per-character upper-casing
    (`upper`); all patterns in the claims are ASCII.
  * Methods that can `throw` return `Except JsError _`; the `async`
    wrappers perform no suspending work (the promises resolve with the
    returned values), so they are modelled as plain functions.

One load-bearing fact about the source, used repeatedly below:
`registerChild` (api-registry.js line 56) runs
`this.#childRegistries?.add?.(name, apiRegistry)`.  A JS `Map` has no
`add` method (`Map.prototype.set` exists, `add` is on `Set`), so `.add`
evaluates to `undefined` and the optional call `?.()` short-circuits:
nothing is ever stored in `#childRegistries`, and no error is raised.
The model translates this line as the identity on the child table.
-/

namespace ApiReg

/-- A JS handler function: `hid` is its reference identity (what `===`,
`indexOf` and object identity compare), `run` is its behaviour when it is
*invoked* with another handler as argument (as `Array.prototype.find` does
in `register`), collapsed to the truthiness of the returned value. -/
structure Handler : Type where
  hid : Nat
  run : Nat → Bool

/-- A JS value passed as the `api` argument: either a function or some
non-callable value (modelled by an opaque tag). `typeof api === 'function'`
distinguishes the two. -/
inductive JsValue : Type where
  | func (h : Handler)
  | nonfunc (tag : Nat)

/-- Errors thrown by the class: `register`/`unregister` throw when the
handler is not a function; `registerChild` throws on a duplicate child
scope name. -/
inductive JsError : Type where
  | notAFunction
  | duplicateChild
deriving DecidableEq

/-- The private fields of one `APIRegistry` node: `#scopeName`, `#apiMap`
(pattern string → array of handlers) and `#childRegistries` (scope name →
child registry).  The parent reference is kept outside, as the explicit
ancestor chain handed to `resolve`.  (All nodes in the claims are
constructed with a string `domainName`, so `scopeName` is a plain
string.) -/
inductive NodeData : Type where
  | mk (scopeName : String) (apiMap : List (String × List Handler))
      (children : List (String × NodeData))

/-- Field accessor for `#scopeName`. -/
def NodeData.scopeName : NodeData → String
  | .mk s _ _ => s

/-- Field accessor for `#apiMap`. -/
def NodeData.apiMap : NodeData → List (String × List Handler)
  | .mk _ m _ => m

/-- Field accessor for `#childRegistries`. -/
def NodeData.children : NodeData → List (String × NodeData)
  | .mk _ _ c => c

/-- Replace the `#apiMap` field (the only field `register`/`unregister`
mutate). -/
def NodeData.withApiMap : NodeData → List (String × List Handler) → NodeData
  | .mk s _ c, m => .mk s m c

/-- `Map.prototype.get` on an insertion-ordered map with unique keys. -/
def mget {α : Type} : List (String × α) → String → Option α
  | [], _ => none
  | (k', v') :: tl, k => if k' == k then some v' else mget tl k

/-- `Map.prototype.set`: update the value in place if the key is present
(keeping its position), otherwise append the new entry. -/
def mset {α : Type} : List (String × α) → String → α → List (String × α)
  | [], k, v => [(k, v)]
  | (k', v') :: tl, k, v =>
      if k' == k then (k', v) :: tl else (k', v') :: mset tl k v

/-- `Map.prototype.delete`: remove the entry for the key, if any. -/
def mdel {α : Type} : List (String × α) → String → List (String × α)
  | [], _ => []
  | (k', v') :: tl, k => if k' == k then tl else (k', v') :: mdel tl k

/-- `#childRegistries?.get?.(key)` where the key may be `undefined`
(JS `Map.get(undefined)` misses a map whose keys are strings). -/
def childLookup (l : List (String × NodeData)) : Option String → Option NodeData
  | none => none
  | some s => mget l s

/-- `toLocaleUpperCase()`, modelled character-wise (ASCII-faithful). -/
def upper (s : String) : String :=
  String.mk (s.data.map Char.toUpper)

/-- Helper for `splitPat`: scan the character list, cutting at each
(leftmost, non-overlapping) occurrence of the two-character delimiter
`::`, like `String.prototype.split('::')`. -/
def splitPatAux : List Char → List Char → List String
  | ':' :: ':' :: rest, acc => String.mk acc.reverse :: splitPatAux rest []
  | c :: rest, acc => splitPatAux rest (c :: acc)
  | [], acc => [String.mk acc.reverse]

/-- `pattern.split('::')` — always a non-empty list (JS `split` on a
string input never yields `[]`). -/
def splitPat (s : String) : List String :=
  splitPatAux s.data []

/-- `segments.join('::')`. -/
def joinPat : List String → String
  | [] => ""
  | [s] => s
  | s :: rest => s ++ "::" ++ joinPat rest

/-- `_find(pattern)` (api-registry.js lines 212–231).  The JS method
destructively `shift`s the first segment off the array, compares it with
`#scopeName`; on a match it looks the joined remainder up in `#apiMap`
(`?? []`); otherwise it looks the *post-shift* head `pattern[0]` up in
`#childRegistries` and, on a hit, recurses into the child with the
shifted array; otherwise it returns `[]`.  An empty array (`shift`
returning `undefined`) falls through both steps to `[]`, since
`undefined === scopeName` is false for a string scope name and
`Map.get(undefined)` misses. -/
def nfind (n : NodeData) : List String → List Handler
  | [] => []
  | patternScope :: rest =>
      if patternScope == n.scopeName then
        (mget n.apiMap (joinPat rest)).getD []
      else
        match childLookup n.children rest.head? with
        | some childRegistry => nfind childRegistry rest
        | none => []

/-- `resolve(pattern)` (api-registry.js lines 112–123): upper-case and
split the pattern, `_find` locally; a non-empty result is returned (as a
fresh copy `[...apis]` — same value); an empty result is returned as-is
at a root, and otherwise the *original* pattern string is delegated to
`parent.resolve`.  The ancestor chain `anc` lists the parent, the
grandparent, … of `n`.  `resolve` has no `throw` site; it carries the
`Except` type of the other methods to state that. -/
def resolve (n : NodeData) (anc : List NodeData) (pattern : String) :
    Except JsError (List Handler) :=
  match anc with
  | [] =>
      let apis := nfind n (splitPat (upper pattern))
      Except.ok apis
  | p :: ps =>
      let apis := nfind n (splitPat (upper pattern))
      if apis.length > 0 then Except.ok apis
      else resolve p ps pattern

/-- State-threading presentation of `resolve`, for the frame property:
the translation passes every node's data through and returns it together
with the result.  `resolve` reads `#scopeName`, `#apiMap`,
`#childRegistries` and `#parentRegistry` but writes none of them (its
only mutation, `pattern.shift()` inside `_find`, acts on the fresh array
created by `split` on each call). -/
def resolveSt (n : NodeData) (anc : List NodeData) (pattern : String) :
    (NodeData × List NodeData) × List Handler :=
  match anc with
  | [] =>
      let apis := nfind n (splitPat (upper pattern))
      ((n, []), apis)
  | p :: ps =>
      let apis := nfind n (splitPat (upper pattern))
      if apis.length > 0 then ((n, p :: ps), apis)
      else
        let st := resolveSt p ps pattern
        ((n, st.1.1 :: st.1.2), st.2)

/-- Body of `register(pattern, api)` (api-registry.js lines 75–94) after
the `typeof` guard: upper-case the pattern; create an empty list for the
key if absent; then `if (!apiList?.find?.(api)) apiList?.push?.(api)` —
`Array.prototype.find` uses `api` as a *predicate*, invoking it on each
element, so the push happens iff `api`'s invocation is falsy on every
element already in the list (elements are functions, hence truthy when
`find` returns one).  Always returns `true`; the `serverEnvironment`
check only gates a `console.info`. -/
def registerFn (n : NodeData) (pattern : String) (api : Handler) :
    NodeData × Bool :=
  let pat := upper pattern
  let m0 := if (mget n.apiMap pat).isNone then mset n.apiMap pat [] else n.apiMap
  let apiList := (mget m0 pat).getD []
  let m1 :=
    if (apiList.find? (fun e => api.run e.hid)).isNone then
      mset m0 pat (apiList ++ [api])
    else m0
  (n.withApiMap m1, true)

/-- `register(pattern, api)` with its guard: throws when `api` is not a
function, otherwise runs the body. -/
def register (n : NodeData) (pattern : String) (api : JsValue) :
    Except JsError (NodeData × Bool) :=
  match api with
  | .nonfunc _ => Except.error JsError.notAFunction
  | .func f => Except.ok (registerFn n pattern f)

/-- Body of `unregister(pattern, api)` (api-registry.js lines 141–165)
after the `typeof` guard: missing key → `true` unchanged; `indexOf`
(identity comparison) missing → `true` unchanged; otherwise `splice` the
one occurrence out and delete the key when the list became empty.
Always returns `true`. -/
def unregisterFn (n : NodeData) (pattern : String) (api : Handler) :
    NodeData × Bool :=
  let pat := upper pattern
  match mget n.apiMap pat with
  | none => (n, true)
  | some apiList =>
      match apiList.findIdx? (fun e => e.hid == api.hid) with
      | none => (n, true)
      | some apiIndex =>
          let newList := apiList.eraseIdx apiIndex
          let spliced := mset n.apiMap pat newList
          let m1 := if newList.length = 0 then mdel spliced pat else spliced
          (n.withApiMap m1, true)

/-- `unregister(pattern, api)` with its guard. -/
def unregister (n : NodeData) (pattern : String) (api : JsValue) :
    Except JsError (NodeData × Bool) :=
  match api with
  | .nonfunc _ => Except.error JsError.notAFunction
  | .func f => Except.ok (unregisterFn n pattern f)

/-- `registerChild(name, apiRegistry)` (api-registry.js lines 49–57):
upper-case the name; throw if `#childRegistries.get(name)` is truthy;
then `this.#childRegistries?.add?.(name, apiRegistry)` — a JS `Map` has
no `add` method, so the optional call short-circuits to `undefined` and
*stores nothing*: the child table is returned unchanged.  (The method
returns `undefined`, modelled as `Unit`.) -/
def registerChild (n : NodeData) (name : String) (_apiRegistry : NodeData) :
    Except JsError (NodeData × Unit) :=
  let nm := upper name
  if (mget n.children nm).isSome then Except.error JsError.duplicateChild
  else Except.ok (n, ())

/-- `unregisterAll()` (api-registry.js lines 179–190) restricted to the
node's own fields: `#apiMap.clear()`, `#childRegistries.clear()`.  (The
method also nulls the parent back-reference, which in the chain model
means subsequent `resolve` calls from this node run with an empty
ancestor list.) -/
def unregisterAllFn (n : NodeData) : NodeData :=
  NodeData.mk n.scopeName [] []

/-- The constructor `new APIRegistry(domainName, parentRegistry)`:
upper-cases the domain name into `#scopeName`, starts with empty maps,
stores the parent reference, and calls
`parentRegistry?.registerChild?.(scopeName, this)` — which, per
`registerChild` above, never changes the parent's (always empty) child
table and never throws.  The result is the new node's chain: its own
data followed by its ancestors' data. -/
def constructChain (domainName : String) (parentChain : List NodeData) :
    List NodeData :=
  NodeData.mk (upper domainName) [] [] :: parentChain

/-- One mutating operation on a single node, for reachable-state
induction: `register`, `unregister` (with a function handler — the
non-function case throws before touching state) or `unregisterAll`. -/
inductive RegOp : Type where
  | reg (pattern : String) (h : Handler)
  | unreg (pattern : String) (h : Handler)
  | unregAll

/-- Apply one operation to a node's data. -/
def applyOp (n : NodeData) : RegOp → NodeData
  | .reg p h => (registerFn n p h).1
  | .unreg p h => (unregisterFn n p h).1
  | .unregAll => unregisterAllFn n

/-- The node states reachable from a freshly constructed node by a
sequence of `register` / `unregister` / `unregisterAll` calls. -/
def runOps (domainName : String) (ops : List RegOp) : NodeData :=
  ops.foldl applyOp (NodeData.mk (upper domainName) [] [])

/-- Every pattern key present in a node's handler table maps to a
non-empty handler list. -/
def noEmptyLists (n : NodeData) : Prop :=
  ∀ pr ∈ n.apiMap, pr.2 ≠ []

/-- Two strings differ only in letter case: their characters agree up to
upper-casing (in particular they have the same length). -/
def caseVariants (p q : String) : Prop :=
  p.data.map Char.toUpper = q.data.map Char.toUpper

/-- Handler identity `h.hid` is absent from every handler list stored in
the node's table. -/
def handlerAbsent (i : Nat) (n : NodeData) : Prop :=
  ∀ pr ∈ n.apiMap, ∀ e ∈ pr.2, e.hid ≠ i

/-- Iterated registration: call `register(pattern, h)` (with a function
handler, so no throw) `k` times in a row on the same node. -/
def regMany : Nat → NodeData → String → Handler → NodeData
  | 0, n, _, _ => n
  | k + 1, n, p, h => regMany k ((registerFn n p h).1) p h

/-- Concrete handlers for the scenario theorems.  `hFalsy`, `hDoThing`,
`hX`, `hCase`, `hY` return a falsy value on every invocation (like a
handler with no return statement); `hTruthy` returns a truthy value. -/
def hDoThing : Handler := ⟨1, fun _ => false⟩

/-- Concrete handler with identity 2, falsy on every invocation. -/
def hFalsy : Handler := ⟨2, fun _ => false⟩

/-- Concrete handler with identity 4, falsy on every invocation. -/
def hX : Handler := ⟨4, fun _ => false⟩

/-- Concrete handler with identity 5, falsy on every invocation. -/
def hY : Handler := ⟨5, fun _ => false⟩

/-- Concrete handler with identity 6, falsy on every invocation. -/
def hCase : Handler := ⟨6, fun _ => false⟩

/-- Concrete handler with identity 7, falsy on every invocation. -/
def hGone : Handler := ⟨7, fun _ => false⟩

/-- Concrete handler with identity 0 that returns a truthy value on every
invocation (like a handler returning an object or a promise). -/
def hTruthy : Handler := ⟨0, fun _ => true⟩

/-- The `ROOT` node of the 3-level end-to-end scenario, freshly
constructed. -/
def rootNode : NodeData := NodeData.mk "ROOT" [] []

/-- The `DOMAIN` node of the scenario (child of `ROOT` by construction;
the attachment itself stores nothing, see `registerChild`). -/
def domainNode : NodeData := NodeData.mk "DOMAIN" [] []

/-- The `CONTEXT` node of the scenario before any registration. -/
def contextNode : NodeData := NodeData.mk "CONTEXT" [] []

/-- The `CONTEXT` node after `register("DO_THING", h1)`. -/
def contextReg : NodeData := (registerFn contextNode "DO_THING" hDoThing).1

/-- The node `N` of the register/resolve round-trip counterexample after
two identical `register("P", hFalsy)` calls. -/
def nodeN2 : NodeData :=
  (registerFn (registerFn (NodeData.mk "N" [] []) "P" hFalsy).1 "P" hFalsy).1

/-- The node of the case-insensitivity counterexample after
`register("Foo::Bar", hCase)`. -/
def fooNode : NodeData := (registerFn (NodeData.mk "FOO" [] []) "Foo::Bar" hCase).1

/-- The same node registered instead under the local key `"Bar"` (the
corrected form of the case-insensitivity example). -/
def fooNodeLocal : NodeData := (registerFn (NodeData.mk "FOO" [] []) "Bar" hCase).1

section MapLemmas

variable {α : Type}

theorem mget_eq_some_mem {m : List (String × α)} {k : String} {v : α}
    (h : mget m k = some v) : (k, v) ∈ m := by
  induction m with
  | nil => simp [mget] at h
  | cons hd tl ih =>
      by_cases hk : hd.1 = k
      · obtain ⟨k', v'⟩ := hd
        simp only [mget, show (k' == k) = true from beq_iff_eq.mpr hk] at h
        simp_all
      · obtain ⟨k', v'⟩ := hd
        simp only [mget, show (k' == k) = false from beq_eq_false_iff_ne.mpr hk] at h
        exact List.mem_cons_of_mem _ (ih h)

theorem mget_mset_self (m : List (String × α)) (k : String) (v : α) :
    mget (mset m k v) k = some v := by
  induction m with
  | nil => simp [mget, mset]
  | cons hd tl ih =>
      obtain ⟨k', v'⟩ := hd
      by_cases hk : k' = k
      · simp [mget, mset, hk]
      · simp [mget, mset, beq_eq_false_iff_ne.mpr hk, ih]

theorem mset_mset_same (m : List (String × α)) (k : String) (v w : α) :
    mset (mset m k v) k w = mset m k w := by
  induction m with
  | nil => simp [mset]
  | cons hd tl ih =>
      obtain ⟨k', v'⟩ := hd
      by_cases hk : k' = k
      · simp [mset, hk]
      · simp [mset, beq_eq_false_iff_ne.mpr hk, ih]

theorem mdel_mset_same (m : List (String × α)) (k : String) (v : α) :
    mdel (mset m k v) k = mdel m k := by
  induction m with
  | nil => simp [mset, mdel]
  | cons hd tl ih =>
      obtain ⟨k', v'⟩ := hd
      by_cases hk : k' = k
      · simp [mset, mdel, hk]
      · simp [mset, mdel, beq_eq_false_iff_ne.mpr hk, ih]

theorem mset_eq_append_of_mget_none {m : List (String × α)} {k : String}
    (h : mget m k = none) (v : α) : mset m k v = m ++ [(k, v)] := by
  induction m with
  | nil => simp [mset]
  | cons hd tl ih =>
      obtain ⟨k', v'⟩ := hd
      by_cases hk : k' = k
      · simp [mget, hk] at h
      · simp only [mget, beq_eq_false_iff_ne.mpr hk] at h
        simp [mset, beq_eq_false_iff_ne.mpr hk, ih h]

theorem mdel_eq_of_mget_none {m : List (String × α)} {k : String}
    (h : mget m k = none) : mdel m k = m := by
  induction m with
  | nil => simp [mdel]
  | cons hd tl ih =>
      obtain ⟨k', v'⟩ := hd
      by_cases hk : k' = k
      · simp [mget, hk] at h
      · simp only [mget, beq_eq_false_iff_ne.mpr hk] at h
        simp [mdel, beq_eq_false_iff_ne.mpr hk, ih h]

theorem mdel_append_single {m : List (String × α)} {k : String}
    (h : mget m k = none) (v : α) : mdel (m ++ [(k, v)]) k = m := by
  induction m with
  | nil => simp [mdel]
  | cons hd tl ih =>
      obtain ⟨k', v'⟩ := hd
      by_cases hk : k' = k
      · simp [mget, hk] at h
      · simp only [mget, beq_eq_false_iff_ne.mpr hk] at h
        simp [mdel, beq_eq_false_iff_ne.mpr hk, ih h]

theorem mem_mset {m : List (String × α)} {k : String} {v : α} {pr : String × α}
    (h : pr ∈ mset m k v) : pr = (k, v) ∨ pr ∈ m := by
  induction m with
  | nil =>
      simp only [mset, List.mem_singleton] at h
      exact Or.inl h
  | cons hd tl ih =>
      obtain ⟨k', v'⟩ := hd
      by_cases hk : k' = k
      · simp only [mset, beq_iff_eq.mpr hk] at h
        rcases List.mem_cons.mp h with h1 | h1
        · exact Or.inl (by simpa [hk] using h1)
        · exact Or.inr (List.mem_cons_of_mem _ h1)
      · simp only [mset, beq_eq_false_iff_ne.mpr hk] at h
        rcases List.mem_cons.mp h with h1 | h1
        · exact Or.inr (by simp [h1])
        · rcases ih h1 with h2 | h2
          · exact Or.inl h2
          · exact Or.inr (List.mem_cons_of_mem _ h2)

theorem mem_mdel {m : List (String × α)} {k : String} {pr : String × α}
    (h : pr ∈ mdel m k) : pr ∈ m := by
  induction m with
  | nil => simp [mdel] at h
  | cons hd tl ih =>
      obtain ⟨k', v'⟩ := hd
      by_cases hk : k' = k
      · simp only [mdel, beq_iff_eq.mpr hk] at h
        exact List.mem_cons_of_mem _ h
      · simp only [mdel, beq_eq_false_iff_ne.mpr hk] at h
        rcases List.mem_cons.mp h with h1 | h1
        · simp [h1]
        · exact List.mem_cons_of_mem _ (ih h1)

end MapLemmas

theorem NodeData.withApiMap_scopeName (n : NodeData)
    (m : List (String × List Handler)) : (n.withApiMap m).scopeName = n.scopeName := by
  cases n; rfl

theorem NodeData.withApiMap_apiMap (n : NodeData)
    (m : List (String × List Handler)) : (n.withApiMap m).apiMap = m := by
  cases n; rfl

theorem NodeData.withApiMap_children (n : NodeData)
    (m : List (String × List Handler)) : (n.withApiMap m).children = n.children := by
  cases n; rfl

theorem NodeData.withApiMap_self (n : NodeData) :
    n.withApiMap n.apiMap = n := by
  cases n; rfl

theorem NodeData.withApiMap_withApiMap (n : NodeData)
    (m m' : List (String × List Handler)) :
    (n.withApiMap m).withApiMap m' = n.withApiMap m' := by
  cases n; rfl

theorem registerFn_snd (n : NodeData) (p : String) (h : Handler) :
    (registerFn n p h).2 = true := rfl

theorem unregisterFn_snd (n : NodeData) (p : String) (h : Handler) :
    (unregisterFn n p h).2 = true := by
  simp only [unregisterFn]
  split
  · rfl
  · split <;> rfl

theorem registerFn_fresh {n : NodeData} {p : String} (h : Handler)
    (hfresh : mget n.apiMap (upper p) = none) :
    (registerFn n p h).1 = n.withApiMap (mset n.apiMap (upper p) [h]) := by
  unfold registerFn
  simp only [hfresh, Option.isNone_none, if_true, mget_mset_self, Option.getD_some,
    List.find?_nil, Option.isNone_none, List.nil_append, mset_mset_same]

theorem registerFn_found {n : NodeData} {p : String} {h : Handler} {l : List Handler}
    (hl : mget n.apiMap (upper p) = some l)
    (hfound : (l.find? (fun e => h.run e.hid)).isSome) :
    (registerFn n p h).1 = n := by
  have hfalse : (l.find? (fun e => h.run e.hid)).isNone = false := by
    cases hv : l.find? (fun e => h.run e.hid) with
    | none => rw [hv] at hfound; simp at hfound
    | some v => simp
  simp only [registerFn, hl, Option.isNone_some, Bool.false_eq_true, if_false,
    Option.getD_some, hfalse, NodeData.withApiMap_self]

theorem registerFn_push {n : NodeData} {p : String} {h : Handler} {l : List Handler}
    (hl : mget n.apiMap (upper p) = some l)
    (hnone : l.find? (fun e => h.run e.hid) = none) :
    (registerFn n p h).1 = n.withApiMap (mset n.apiMap (upper p) (l ++ [h])) := by
  simp only [registerFn, hl, Option.isNone_some, Bool.false_eq_true, if_false,
    Option.getD_some, hnone, Option.isNone_none, if_true]

theorem unregisterFn_no_key {n : NodeData} {p : String} (h : Handler)
    (hnone : mget n.apiMap (upper p) = none) :
    unregisterFn n p h = (n, true) := by
  simp only [unregisterFn, hnone]

theorem unregisterFn_no_idx {n : NodeData} {p : String} {h : Handler} {l : List Handler}
    (hl : mget n.apiMap (upper p) = some l)
    (hidx : l.findIdx? (fun e => e.hid == h.hid) = none) :
    unregisterFn n p h = (n, true) := by
  simp only [unregisterFn, hl, hidx]

theorem unregisterFn_erase {n : NodeData} {p : String} {h : Handler} {l : List Handler}
    {i : Nat} (hl : mget n.apiMap (upper p) = some l)
    (hidx : l.findIdx? (fun e => e.hid == h.hid) = some i) :
    unregisterFn n p h =
      (n.withApiMap
        (if (l.eraseIdx i).length = 0 then
            mdel (mset n.apiMap (upper p) (l.eraseIdx i)) (upper p)
          else mset n.apiMap (upper p) (l.eraseIdx i)), true) := by
  simp only [unregisterFn, hl, hidx]

theorem findIdx_append_singleton {l : List Handler} {h : Handler}
    (hall : ∀ e ∈ l, e.hid ≠ h.hid) :
    (l ++ [h]).findIdx? (fun e => e.hid == h.hid) = some l.length := by
  rw [List.findIdx?_append]
  have h1 : l.findIdx? (fun e => e.hid == h.hid) = none := by
    rw [List.findIdx?_eq_none_iff]
    intro x hx
    exact beq_eq_false_iff_ne.mpr (hall x hx)
  rw [h1]
  simp

theorem eraseIdx_append_singleton (l : List Handler) (h : Handler) :
    (l ++ [h]).eraseIdx l.length = l := by
  rw [List.eraseIdx_append_of_length_le (Nat.le_refl l.length)]
  simp

theorem nfind_cons_scope (n : NodeData) (rest : List String) :
    nfind n (n.scopeName :: rest) = (mget n.apiMap (joinPat rest)).getD [] := by
  unfold nfind
  simp

theorem nfind_cons_miss {n : NodeData} {s0 : String} {rest : List String}
    (hs : s0 ≠ n.scopeName) (hc : childLookup n.children rest.head? = none) :
    nfind n (s0 :: rest) = [] := by
  unfold nfind
  rw [if_neg (by simp [hs]), hc]

theorem nfind_mem {n : NodeData} (hch : n.children = []) {pat : List String}
    {e : Handler} (he : e ∈ nfind n pat) : ∃ pr ∈ n.apiMap, e ∈ pr.2 := by
  cases pat with
  | nil => simp [nfind] at he
  | cons s0 rest =>
      unfold nfind at he
      by_cases hs : (s0 == n.scopeName) = true
      · rw [if_pos hs] at he
        cases hm : mget n.apiMap (joinPat rest) with
        | none => rw [hm] at he; simp at he
        | some l =>
            rw [hm] at he
            exact ⟨(joinPat rest, l), mget_eq_some_mem hm, by simpa using he⟩
      · rw [if_neg hs, hch] at he
        cases hk : rest.head? with
        | none => rw [hk] at he; simp [childLookup] at he
        | some s => rw [hk] at he; simp [childLookup, mget] at he

theorem resolve_nil (n : NodeData) (q : String) :
    resolve n [] q = Except.ok (nfind n (splitPat (upper q))) := rfl

theorem resolve_cons (n p : NodeData) (ps : List NodeData) (q : String) :
    resolve n (p :: ps) q =
      if (nfind n (splitPat (upper q))).length > 0 then
        Except.ok (nfind n (splitPat (upper q)))
      else resolve p ps q := rfl

theorem resolve_mem {anc : List NodeData} {n : NodeData} {q : String}
    {l : List Handler} (hch : n.children = [] ∧ ∀ a ∈ anc, a.children = [])
    (hres : resolve n anc q = Except.ok l) {e : Handler} (he : e ∈ l) :
    ∃ node ∈ n :: anc, ∃ pr ∈ node.apiMap, e ∈ pr.2 := by
  induction anc generalizing n with
  | nil =>
      rw [resolve_nil] at hres
      obtain ⟨rfl⟩ : nfind n (splitPat (upper q)) = l := by
        simpa using hres
      exact ⟨n, by simp, nfind_mem hch.1 he⟩
  | cons p ps ih =>
      rw [resolve_cons] at hres
      by_cases hlen : (nfind n (splitPat (upper q))).length > 0
      · rw [if_pos hlen] at hres
        obtain ⟨rfl⟩ : nfind n (splitPat (upper q)) = l := by
          simpa using hres
        exact ⟨n, by simp, nfind_mem hch.1 he⟩
      · rw [if_neg hlen] at hres
        obtain ⟨node, hnode, hpr⟩ :=
          ih (n := p) ⟨hch.2 p (by simp), fun a ha => hch.2 a (by simp [ha])⟩ hres
        exact ⟨node, by simpa using Or.inr hnode, hpr⟩

theorem resolve_congr {p q : String} (hpq : upper p = upper q)
    (n : NodeData) (anc : List NodeData) :
    resolve n anc p = resolve n anc q := by
  induction anc generalizing n with
  | nil => rw [resolve_nil, resolve_nil, hpq]
  | cons a as ih => rw [resolve_cons, resolve_cons, hpq, ih]

/-- Claim C1: the 3-level end-to-end scenario fails on the code.  Build
`ROOT → DOMAIN → CONTEXT` (each attachment runs `registerChild`, which
returns without error but stores nothing, because `Map.prototype.add`
does not exist and the optional call `?.()` short-circuits); register
`hDoThing` at `CONTEXT` for the local pattern `DO_THING` (the entry does
land in `CONTEXT`'s own table); then `resolve("DOMAIN::CONTEXT::DO_THING")`
from `ROOT` returns `[]`, not `[hDoThing]` as the claim demands — `ROOT`'s
child table is empty, and even the pattern walk of `_find` (which, after
`shift`ing `DOMAIN` off, looks `CONTEXT` up among `ROOT`'s children and
then would look the grandchild's scope up one position too early) cannot
reach the grandchild.  The same pattern resolved from `CONTEXT` itself,
through its live parent chain, also returns `[]`. -/
theorem three_level_scenario_resolves_empty :
    (registerChild rootNode "DOMAIN" domainNode = Except.ok (rootNode, ())) ∧
    (registerChild domainNode "CONTEXT" contextNode = Except.ok (domainNode, ())) ∧
    (registerFn contextNode "DO_THING" hDoThing = (contextReg, true)) ∧
    (contextReg.apiMap = [("DO_THING", [hDoThing])]) ∧
    (resolve rootNode [] "DOMAIN::CONTEXT::DO_THING" = Except.ok []) ∧
    (resolve contextReg [domainNode, rootNode] "DOMAIN::CONTEXT::DO_THING" =
      Except.ok []) :=
  ⟨rfl, rfl, rfl, rfl, rfl, rfl⟩

/-- Claim C3: duplicate child attachment does not fail on the code.
Attaching `childOne` under `"C"` and then a different `childTwo` under the
same name both return successfully (no duplicate-scope error is thrown),
and afterwards the parent's child table maps `"C"` to nothing at all —
because `registerChild` line 56 calls the non-existent `Map.prototype.add`
through optional chaining, so the first attachment was never stored and
the duplicate check `#childRegistries.get(name)` can never fire. -/
theorem duplicate_child_attach_is_silent_noop :
    (registerChild (NodeData.mk "PARENT" [] []) "C" (NodeData.mk "ONE" [] []) =
      Except.ok (NodeData.mk "PARENT" [] [], ())) ∧
    (registerChild (NodeData.mk "PARENT" [] []) "C" (NodeData.mk "TWO" [] []) =
      Except.ok (NodeData.mk "PARENT" [] [], ())) ∧
    (mget (NodeData.mk "PARENT" [] []).children "C" = none) :=
  ⟨rfl, rfl, rfl⟩

/-- Claim C2, counterexample: on a fresh root node with scope `N`,
registering the falsy handler `hFalsy` under `"P"` twice stores it twice
(`register` tests duplicates with `apiList.find(api)`, which invokes the
handler as a predicate; `hFalsy` returns a falsy value on every element,
so `find` never reports a duplicate), and `resolve("P")` — the very call
the claim says contains the handler exactly once — returns `[]`, because
`resolve` strips the leading segment `P` (compared against the scope name
`N`) before the table lookup, while `register` keyed the entry by the
full string `P`.  The scoped lookup `resolve("N::P")` exposes the
duplicate: it returns `hFalsy` twice. -/
theorem register_twice_resolve_counterexample :
    (nodeN2.apiMap = [("P", [hFalsy, hFalsy])]) ∧
    (resolve nodeN2 [] "P" = Except.ok []) ∧
    (resolve nodeN2 [] "N::P" = Except.ok [hFalsy, hFalsy]) :=
  ⟨rfl, rfl, rfl⟩

/-- Claim C4, counterexample: a scope match with an empty local entry is
not authoritative.  Node `n` has scope `C`, the pattern `C::X` matches
that scope, and `n` has no local entry for the remainder `X` — the claim
says `resolve` must return `[]` without delegating.  But `n`'s parent
(also named `C`) holds `X ↦ [hX]`, and `resolve` on `n` returns `[hX]`:
the empty local result falls through to `parent.resolve(pattern)`. -/
theorem scope_match_delegates_counterexample :
    ((NodeData.mk "C" [] []).scopeName = "C") ∧
    (splitPat (upper "C::X") = ["C", "X"]) ∧
    (mget (NodeData.mk "C" ([] : List (String × List Handler)) []).apiMap "X" = none) ∧
    (resolve (NodeData.mk "C" [] []) [NodeData.mk "C" [("X", [hX])] []] "C::X" =
      Except.ok [hX]) :=
  ⟨rfl, rfl, rfl, rfl⟩

/-- Claim C6, counterexample: `register("Foo::Bar", hCase)` followed by
`resolve("foo::BAR")` on the same (root, scope `FOO`) node does *not*
find the handler: both calls normalize case identically, but `register`
keys the table by the full `FOO::BAR` while `resolve` matches `FOO`
against the scope name and looks up only the remainder `BAR`; the
original-case query fails the same way, so this is a key-shape mismatch,
not a case mismatch. -/
theorem case_example_counterexample :
    (fooNode.apiMap = [("FOO::BAR", [hCase])]) ∧
    (resolve fooNode [] "foo::BAR" = Except.ok []) ∧
    (resolve fooNode [] "Foo::Bar" = Except.ok []) :=
  ⟨rfl, rfl, rfl⟩

/-- Claim C5: fallback to ancestors.  When the pattern's leading
(normalized) segment does not equal the node's scope name and no child
matches the following segment, `resolve` on a non-root node returns
exactly `parent.resolve(pattern)` (the original pattern string), and a
root node returns the empty sequence. -/
theorem fallback_to_parent_resolve (n : NodeData) (anc : List NodeData)
    (q s0 : String) (rest : List String)
    (hsplit : splitPat (upper q) = s0 :: rest)
    (hscope : s0 ≠ n.scopeName)
    (hchild : childLookup n.children rest.head? = none) :
    (∀ p ps, anc = p :: ps → resolve n anc q = resolve p ps q) ∧
    (anc = [] → resolve n anc q = Except.ok []) := by
  have hfind : nfind n (splitPat (upper q)) = [] := by
    rw [hsplit]; exact nfind_cons_miss hscope hchild
  constructor
  · rintro p ps rfl
    rw [resolve_cons, hfind]
    simp
  · rintro rfl
    rw [resolve_nil, hfind]

/-- Witness for C5, instantiating the fallback theorem on the claim's
own scenario: root `R` holds a local entry `Y ↦ [hY]`, `C` is `R`'s
child, `G` is `C`'s child, and nothing in `C`'s subtree matches
`R::Y`.  Resolving `R::Y` from the grandchild `G` climbs through `C` to
`R` and returns `R`'s handlers for `Y`. -/
theorem fallback_to_parent_resolve_witness :
    resolve (NodeData.mk "G" [] [])
        [NodeData.mk "C" [] [], NodeData.mk "R" [("Y", [hY])] []] "R::Y" =
      Except.ok [hY] := by
  have h1 :=
    (fallback_to_parent_resolve (NodeData.mk "G" [] [])
        [NodeData.mk "C" [] [], NodeData.mk "R" [("Y", [hY])] []]
        "R::Y" "R" ["Y"] rfl (by decide) rfl).1
      (NodeData.mk "C" [] []) [NodeData.mk "R" [("Y", [hY])] []] rfl
  have h2 :=
    (fallback_to_parent_resolve (NodeData.mk "C" [] [])
        [NodeData.mk "R" [("Y", [hY])] []]
        "R::Y" "R" ["Y"] rfl (by decide) rfl).1
      (NodeData.mk "R" [("Y", [hY])] []) [] rfl
  rw [h1, h2]
  rfl

/-- Claim C4, amended: a scope match at a node is authoritative only when
it yields a non-empty local entry.  When the leading normalized segment
equals the node's scope name, `resolve` returns the local handler-table
entry for the joined remainder without consulting children or parent
*provided it is non-empty*; when the local entry is absent (or empty),
a root node returns the empty sequence, but a non-root node delegates
to `parent.resolve(pattern)` — even when an ancestor then supplies
handlers. -/
theorem scope_match_authoritative_when_nonempty (n : NodeData)
    (anc : List NodeData) (q : String) (rest : List String)
    (hsplit : splitPat (upper q) = n.scopeName :: rest) :
    ((mget n.apiMap (joinPat rest)).getD [] ≠ [] →
      resolve n anc q = Except.ok ((mget n.apiMap (joinPat rest)).getD [])) ∧
    ((mget n.apiMap (joinPat rest)).getD [] = [] →
      (anc = [] → resolve n anc q = Except.ok []) ∧
      (∀ p ps, anc = p :: ps → resolve n anc q = resolve p ps q)) := by
  have hfind : nfind n (splitPat (upper q)) =
      (mget n.apiMap (joinPat rest)).getD [] := by
    rw [hsplit]; exact nfind_cons_scope n rest
  constructor
  · intro hne
    cases anc with
    | nil => rw [resolve_nil, hfind]
    | cons p ps =>
        rw [resolve_cons, hfind, if_pos (by simpa [List.length_pos] using hne)]
  · intro hempty
    constructor
    · rintro rfl
      rw [resolve_nil, hfind, hempty]
    · rintro p ps rfl
      rw [resolve_cons, hfind, hempty]
      simp

/-- Witness for the amended C4: a node with scope `S` and local entry
`X ↦ [hX]`, queried with `S::X`, returns exactly that entry. -/
theorem scope_match_authoritative_when_nonempty_witness :
    resolve (NodeData.mk "S" [("X", [hX])] []) [] "S::X" = Except.ok [hX] := by
  have h1 :=
    (scope_match_authoritative_when_nonempty
        (NodeData.mk "S" [("X", [hX])] []) [] "S::X" ["X"] rfl).1
      (by exact List.cons_ne_nil _ _)
  exact h1

/-- Iterated registration of a handler that is already the key's sole
entry and is truthy on itself changes nothing: `register` re-runs
`apiList.find(api)`, the handler (as a predicate) returns a truthy value
on its own entry, so no push happens. -/
theorem regMany_fixed {n : NodeData} {p : String} {h : Handler} (k : Nat)
    (hstate : mget n.apiMap (upper p) = some [h])
    (hself : h.run h.hid = true) :
    regMany k n p h = n := by
  induction k with
  | zero => rfl
  | succ k ih =>
      have hfound : ((([h] : List Handler)).find? (fun e => h.run e.hid)).isSome := by
        simp [List.find?, hself]
      have hfix : (registerFn n p h).1 = n := registerFn_found hstate hfound
      show regMany k ((registerFn n p h).1) p h = n
      rw [hfix, ih]

/-- Claim C2, amended: register-then-resolve round trip, through the
scoped key.  On a node whose table has no entry yet for the normalized
pattern, and for a handler whose invocation on itself is truthy (the
duplicate check is `apiList.find(api)`, which *invokes* the handler as a
predicate), calling `register(pattern, h)` one or more times and then
resolving the pattern *prefixed with the node's scope name* returns the
sequence `[h]` — the handler exactly once.  (The un-prefixed
`resolve(pattern)` of the original claim does not return the handler:
`register` keys the table by the full normalized pattern, while
`resolve` strips the matched scope segment before the lookup; and for a
handler falsy on itself the repeated registrations duplicate the entry —
see the counterexample.) -/
theorem register_scoped_resolve_contains_once (n : NodeData)
    (anc : List NodeData) (p q : String) (rest : List String) (h : Handler)
    (k : Nat)
    (hfresh : mget n.apiMap (upper p) = none)
    (hself : h.run h.hid = true)
    (hsplit : splitPat (upper q) = n.scopeName :: rest)
    (hjoin : joinPat rest = upper p) :
    resolve (regMany (k + 1) n p h) anc q = Except.ok [h] := by
  have h1 : (registerFn n p h).1 = n.withApiMap (mset n.apiMap (upper p) [h]) :=
    registerFn_fresh h hfresh
  have hstate : mget (n.withApiMap (mset n.apiMap (upper p) [h])).apiMap (upper p) =
      some [h] := by
    rw [NodeData.withApiMap_apiMap]; exact mget_mset_self _ _ _
  have hall : regMany (k + 1) n p h = n.withApiMap (mset n.apiMap (upper p) [h]) := by
    show regMany k ((registerFn n p h).1) p h = _
    rw [h1]
    exact regMany_fixed k hstate hself
  rw [hall]
  have hscope : (n.withApiMap (mset n.apiMap (upper p) [h])).scopeName = n.scopeName :=
    NodeData.withApiMap_scopeName n _
  have hfind : nfind (n.withApiMap (mset n.apiMap (upper p) [h]))
      (splitPat (upper q)) = [h] := by
    rw [hsplit, ← hscope, nfind_cons_scope, hjoin, hstate]
    rfl
  cases anc with
  | nil => rw [resolve_nil, hfind]
  | cons a as =>
      rw [resolve_cons, hfind]
      simp

/-- Witness for the amended C2: a fresh root node with scope `N`, the
self-truthy handler `hTruthy` registered twice under `"P"`, then
`resolve("N::P")` returns `[hTruthy]`. -/
theorem register_scoped_resolve_contains_once_witness :
    resolve (regMany 2 (NodeData.mk "N" [] []) "P" hTruthy) [] "N::P" =
      Except.ok [hTruthy] :=
  register_scoped_resolve_contains_once (NodeData.mk "N" [] []) [] "P" "N::P"
    ["P"] hTruthy 1 rfl rfl rfl rfl

/-- Claim C6, amended: registration and resolution do apply the identical
case normalization — for patterns `p`, `q` that differ only in letter
case, `register` behaves identically on both, and `resolve(q)` equals
`resolve(p)` in any state; but the claim's example must use the local
key: with node scope `FOO`, it is `register("Bar", h)` (not
`register("Foo::Bar", h)`) that makes `resolve("foo::BAR")` find `h`,
because `register` keys by the full pattern while `resolve` looks up the
pattern minus the matched scope segment. -/
theorem case_insensitive_normalization (n : NodeData) (anc : List NodeData)
    (p q : String) (h : Handler) (hpq : caseVariants p q) :
    (registerFn n p h = registerFn n q h) ∧
    (resolve (registerFn n p h).1 anc q = resolve (registerFn n p h).1 anc p) ∧
    (resolve fooNodeLocal [] "foo::BAR" = Except.ok [hCase]) := by
  have hu : upper p = upper q := congrArg String.mk hpq
  refine ⟨?_, ?_, rfl⟩
  · unfold registerFn
    rw [hu]
  · exact resolve_congr hu.symm _ anc

/-- Witness for the amended C6: `register("Foo::Bar", hCase)` then
`resolve("foo::BAR")` returns the same sequence as `resolve("Foo::Bar")`
on that node. -/
theorem case_insensitive_normalization_witness :
    resolve (registerFn (NodeData.mk "FOO" [] []) "Foo::Bar" hCase).1 []
        "foo::BAR" =
      resolve (registerFn (NodeData.mk "FOO" [] []) "Foo::Bar" hCase).1 []
        "Foo::Bar" :=
  (case_insensitive_normalization (NodeData.mk "FOO" [] []) [] "Foo::Bar"
    "foo::BAR" hCase rfl).2.1

theorem register_unregister_roundtrip_absent {n : NodeData} {p : String}
    {h : Handler} (habs : handlerAbsent h.hid n) :
    handlerAbsent h.hid (unregisterFn (registerFn n p h).1 p h).1 ∧
    (unregisterFn (registerFn n p h).1 p h).1.children = n.children := by
  cases hm : mget n.apiMap (upper p) with
  | none =>
      have h1 : (registerFn n p h).1 = n.withApiMap (mset n.apiMap (upper p) [h]) :=
        registerFn_fresh h hm
      have h2 : mget (registerFn n p h).1.apiMap (upper p) = some [h] := by
        rw [h1, NodeData.withApiMap_apiMap]; exact mget_mset_self _ _ _
      have h3 : ([h] : List Handler).findIdx? (fun e => e.hid == h.hid) = some 0 := by
        simp
      have h4 := unregisterFn_erase h2 h3
      have h5 : (unregisterFn (registerFn n p h).1 p h).1 = n := by
        rw [h4]
        show (registerFn n p h).1.withApiMap
            (mdel (mset (registerFn n p h).1.apiMap (upper p) []) (upper p)) = n
        rw [h1, NodeData.withApiMap_apiMap, NodeData.withApiMap_withApiMap,
          mset_mset_same, mset_eq_append_of_mget_none hm, mdel_append_single hm,
          NodeData.withApiMap_self]
      rw [h5]
      exact ⟨habs, rfl⟩
  | some l =>
      have hlfree : ∀ e ∈ l, e.hid ≠ h.hid :=
        fun e he => habs (upper p, l) (mget_eq_some_mem hm) e he
      cases hf : l.find? (fun e => h.run e.hid) with
      | some v =>
          have h1 : (registerFn n p h).1 = n :=
            registerFn_found hm (by rw [hf]; rfl)
          have hidx : l.findIdx? (fun e => e.hid == h.hid) = none := by
            rw [List.findIdx?_eq_none_iff]
            intro x hx
            exact beq_eq_false_iff_ne.mpr (hlfree x hx)
          have h2 : unregisterFn n p h = (n, true) := unregisterFn_no_idx hm hidx
          rw [h1, h2]
          exact ⟨habs, rfl⟩
      | none =>
          have h1 : (registerFn n p h).1 =
              n.withApiMap (mset n.apiMap (upper p) (l ++ [h])) :=
            registerFn_push hm hf
          have h2 : mget (registerFn n p h).1.apiMap (upper p) = some (l ++ [h]) := by
            rw [h1, NodeData.withApiMap_apiMap]; exact mget_mset_self _ _ _
          have h3 : (l ++ [h]).findIdx? (fun e => e.hid == h.hid) = some l.length :=
            findIdx_append_singleton hlfree
          have h4 := unregisterFn_erase h2 h3
          have h5 : (unregisterFn (registerFn n p h).1 p h).1 =
              n.withApiMap (if l.length = 0 then mdel n.apiMap (upper p)
                else mset n.apiMap (upper p) l) := by
            rw [h4]
            rw [eraseIdx_append_singleton l h, h1, NodeData.withApiMap_apiMap,
              NodeData.withApiMap_withApiMap, mset_mset_same, mdel_mset_same]
          rw [h5]
          refine ⟨?_, NodeData.withApiMap_children n _⟩
          intro pr hpr e he
          rw [NodeData.withApiMap_apiMap] at hpr
          by_cases hl0 : l.length = 0
          · rw [if_pos hl0] at hpr
            exact habs pr (mem_mdel hpr) e he
          · rw [if_neg hl0] at hpr
            rcases mem_mset hpr with h6 | h6
            · subst h6
              exact hlfree e he
            · exact habs pr h6 e he

/-- Claim C7: unregister removes and is idempotent.  On a node (and
ancestor chain) with empty child tables where the handler is not yet
registered anywhere, registering and then unregistering `(pattern, h)`
once makes every subsequent `resolve(pattern)` result free of `h`; a
second `unregister` with the same pair returns success and leaves the
node (handler table included) exactly unchanged, and so does an
`unregister` for any pattern with no table entry. -/
theorem unregister_removes_and_idempotent (n : NodeData) (anc : List NodeData)
    (p : String) (h : Handler)
    (hch : n.children = []) (hanc : ∀ a ∈ anc, a.children = [])
    (habs : handlerAbsent h.hid n) (habsanc : ∀ a ∈ anc, handlerAbsent h.hid a) :
    ((unregisterFn (registerFn n p h).1 p h).2 = true) ∧
    (∀ l, resolve (unregisterFn (registerFn n p h).1 p h).1 anc p = Except.ok l →
      ∀ e ∈ l, e.hid ≠ h.hid) ∧
    (unregisterFn (unregisterFn (registerFn n p h).1 p h).1 p h =
      ((unregisterFn (registerFn n p h).1 p h).1, true)) ∧
    (∀ q, mget n.apiMap (upper q) = none → unregisterFn n q h = (n, true)) := by
  obtain ⟨hA, hB⟩ := register_unregister_roundtrip_absent (p := p) habs
  refine ⟨unregisterFn_snd _ _ _, ?_, ?_, ?_⟩
  · intro l hres e he
    obtain ⟨node, hnode, pr, hpr, hepr⟩ :=
      resolve_mem ⟨hB.trans hch, hanc⟩ hres he
    rcases List.mem_cons.mp hnode with rfl | hnode
    · exact hA pr hpr e hepr
    · exact habsanc node hnode pr hpr e hepr
  · cases hm2 : mget (unregisterFn (registerFn n p h).1 p h).1.apiMap (upper p) with
    | none => exact unregisterFn_no_key h hm2
    | some l₂ =>
        have hfree₂ : ∀ e ∈ l₂, e.hid ≠ h.hid :=
          fun e he => hA (upper p, l₂) (mget_eq_some_mem hm2) e he
        have hidx : l₂.findIdx? (fun e => e.hid == h.hid) = none := by
          rw [List.findIdx?_eq_none_iff]
          intro x hx
          exact beq_eq_false_iff_ne.mpr (hfree₂ x hx)
        exact unregisterFn_no_idx hm2 hidx
  · intro q hq
    exact unregisterFn_no_key h hq

/-- Witness for C7 on a fresh root node with scope `N`: register then
unregister `hGone` under `"P"`; the second unregister returns the same
state with success, and resolving `"P"` afterwards yields a sequence
(here `[]`) free of `hGone`. -/
theorem unregister_removes_and_idempotent_witness :
    ((unregisterFn (registerFn (NodeData.mk "N" [] []) "P" hGone).1 "P" hGone).2 =
      true) ∧
    (unregisterFn
        (unregisterFn (registerFn (NodeData.mk "N" [] []) "P" hGone).1 "P"
          hGone).1 "P" hGone =
      ((unregisterFn (registerFn (NodeData.mk "N" [] []) "P" hGone).1 "P"
          hGone).1, true)) := by
  have H := unregister_removes_and_idempotent (NodeData.mk "N" [] []) [] "P"
    hGone rfl (by simp) (by intro pr hpr; simp [NodeData.apiMap] at hpr)
    (by simp)
  exact ⟨H.1, H.2.2.1⟩

theorem noEmptyLists_registerFn {n : NodeData} (p : String) (h : Handler)
    (hn : noEmptyLists n) : noEmptyLists (registerFn n p h).1 := by
  cases hm : mget n.apiMap (upper p) with
  | none =>
      rw [registerFn_fresh h hm]
      intro pr hpr
      rw [NodeData.withApiMap_apiMap] at hpr
      rcases mem_mset hpr with h1 | h1
      · subst h1; simp
      · exact hn pr h1
  | some l =>
      cases hf : l.find? (fun e => h.run e.hid) with
      | some v =>
          rw [registerFn_found hm (by rw [hf]; rfl)]
          exact hn
      | none =>
          rw [registerFn_push hm hf]
          intro pr hpr
          rw [NodeData.withApiMap_apiMap] at hpr
          rcases mem_mset hpr with h1 | h1
          · subst h1; simp
          · exact hn pr h1

theorem noEmptyLists_unregisterFn {n : NodeData} (p : String) (h : Handler)
    (hn : noEmptyLists n) : noEmptyLists (unregisterFn n p h).1 := by
  cases hm : mget n.apiMap (upper p) with
  | none => rw [unregisterFn_no_key h hm]; exact hn
  | some l =>
      cases hi : l.findIdx? (fun e => e.hid == h.hid) with
      | none => rw [unregisterFn_no_idx hm hi]; exact hn
      | some i =>
          rw [unregisterFn_erase hm hi]
          intro pr hpr
          rw [NodeData.withApiMap_apiMap] at hpr
          by_cases hl0 : (l.eraseIdx i).length = 0
          · rw [if_pos hl0, mdel_mset_same] at hpr
            exact hn pr (mem_mdel hpr)
          · rw [if_neg hl0] at hpr
            rcases mem_mset hpr with h1 | h1
            · subst h1
              intro hnil
              have hnil2 : l.eraseIdx i = [] := hnil
              exact hl0 (by rw [hnil2]; rfl)
            · exact hn pr h1

theorem noEmptyLists_foldl (ops : List RegOp) :
    ∀ n : NodeData, noEmptyLists n → noEmptyLists (ops.foldl applyOp n) := by
  induction ops with
  | nil => intro n hn; exact hn
  | cons op ops ih =>
      intro n hn
      rw [List.foldl_cons]
      refine ih (applyOp n op) ?_
      cases op with
      | reg p h => exact noEmptyLists_registerFn p h hn
      | unreg p h => exact noEmptyLists_unregisterFn p h hn
      | unregAll =>
          intro pr hpr
          simp [applyOp, unregisterAllFn, NodeData.apiMap] at hpr

/-- Claim C8: no-empty-list invariant.  In every node state reachable
from a freshly constructed node by any sequence of `register`,
`unregister` and `unregisterAll` calls, every pattern key present in the
handler table maps to a non-empty handler list: `register` only ever
stores a freshly pushed or already non-empty list, and `unregister`
deletes the key as soon as its list becomes empty. -/
theorem no_empty_list_invariant (domainName : String) (ops : List RegOp) :
    noEmptyLists (runOps domainName ops) :=
  noEmptyLists_foldl ops _ (by intro pr hpr; simp [NodeData.apiMap] at hpr)

/-- Claim C9: failure semantics.  `register` and `unregister` throw
exactly when the supplied handler is not a function (and succeed,
returning `true`, on any function handler — see `registerFn` /
`unregisterFn`, whose second component is always `true`), while
`resolve` never throws: for every tree and every pattern string it
returns some (possibly empty) handler sequence. -/
theorem register_unregister_throw_resolve_total :
    (∀ (n : NodeData) (p : String) (t : Nat),
      register n p (JsValue.nonfunc t) = Except.error JsError.notAFunction) ∧
    (∀ (n : NodeData) (p : String) (h : Handler),
      register n p (JsValue.func h) = Except.ok ((registerFn n p h).1, true)) ∧
    (∀ (n : NodeData) (p : String) (t : Nat),
      unregister n p (JsValue.nonfunc t) = Except.error JsError.notAFunction) ∧
    (∀ (n : NodeData) (p : String) (h : Handler),
      unregister n p (JsValue.func h) = Except.ok ((unregisterFn n p h).1, true)) ∧
    (∀ (n : NodeData) (anc : List NodeData) (q : String),
      ∃ l, resolve n anc q = Except.ok l) := by
  refine ⟨fun _ _ _ => rfl, fun n p h => ?_, fun _ _ _ => rfl, fun n p h => ?_, ?_⟩
  · show Except.ok (registerFn n p h) = _
    rw [show registerFn n p h = ((registerFn n p h).1, true) from
      Prod.ext rfl (registerFn_snd n p h)]
  · show Except.ok (unregisterFn n p h) = _
    rw [show unregisterFn n p h = ((unregisterFn n p h).1, true) from
      Prod.ext rfl (unregisterFn_snd n p h)]
  · intro n anc q
    induction anc generalizing n with
    | nil => exact ⟨_, rfl⟩
    | cons a as ih =>
        rw [resolve_cons]
        by_cases hl : (nfind n (splitPat (upper q))).length > 0
        · rw [if_pos hl]; exact ⟨_, rfl⟩
        · rw [if_neg hl]; exact ih a

/-- Claim C10: resolve is a pure reader.  In the state-threading
presentation `resolveSt`, the state handed back after a `resolve` call —
the node's own data (scope name, handler table, child table) and the
data of every ancestor along the parent chain — is exactly the state
passed in, for every tree and every pattern, and the computed handler
sequence agrees with `resolve`.  Only `register`, `unregister` and
`unregisterAll` (and construction) change node data; `resolve`'s only
mutation in the source is `shift` on the fresh array created by `split`
on each call. -/
theorem resolve_pure_reader (n : NodeData) (anc : List NodeData) (q : String) :
    (resolveSt n anc q).1 = (n, anc) ∧
    Except.ok (resolveSt n anc q).2 = resolve n anc q := by
  induction anc generalizing n with
  | nil => exact ⟨rfl, rfl⟩
  | cons a as ih =>
      obtain ⟨h1, h2⟩ := ih a
      have hcons : resolveSt n (a :: as) q =
          if (nfind n (splitPat (upper q))).length > 0 then
            ((n, a :: as), nfind n (splitPat (upper q)))
          else ((n, (resolveSt a as q).1.1 :: (resolveSt a as q).1.2),
            (resolveSt a as q).2) := rfl
      by_cases hl : (nfind n (splitPat (upper q))).length > 0
      · rw [hcons, if_pos hl, resolve_cons, if_pos hl]
        exact ⟨rfl, rfl⟩
      · rw [hcons, if_neg hl, resolve_cons, if_neg hl, h1]
        exact ⟨rfl, h2⟩

end ApiReg
